import Mathlib

/-!
Verification of the TinyChat peer-to-peer encrypted chat client.

The development shallowly embeds the client's protocol logic:

* the PEM export/import of RSA public keys (`exportRSAKey` / `importRSAKey`),
  including a byte-accurate model of the browser's `btoa` / `atob`
  (WHATWG forgiving-base64: `atob` strips ASCII whitespace before decoding);
* the per-peer AES key table and the RSAKeyShare / AESKeyShare handshake;
* the conversation view (a list of DOM child nodes) and the handlers for
  Typing, StopTyping, Delivered, Edit and plain-message envelopes;
* the local-echo insertion performed by `send` and the double-click
  edit-initiation handler attached to sent nodes.

Platform cryptographic primitives (RSA-OAEP and AES-CBC of WebCrypto) are not
repository code; handlers take them as function parameters and theorems assume
only their documented decrypt-of-encrypt identity, which concrete witness
instantiations discharge.  Machine bytes are modelled as `Nat` with explicit
`< 256` bounds where the byte width matters.
-/

namespace TinyChat

/-- A byte string (each entry is intended to be `< 256`). -/
abbrev Bytes := List Nat

/-! ## Base64: `window.btoa` and `window.atob`

`exportRSAKey` calls `window.btoa(String.fromCharCode.apply(null, bytes))` and
`importRSAKey` calls `str2ab(window.atob (...))`.  A JavaScript latin1 string
of char codes is modelled directly as the byte list, so `btoa` maps bytes to
base64 characters and `atob` (composed with `str2ab`) maps characters back to
bytes. -/

/-- The base64 padding character `=` (code 61). -/
def padChar : Char := Char.ofNat 61

/-- The base64 alphabet: sextet `n` (`n < 64`) to its character. -/
def b64Char (n : Nat) : Char :=
  if n < 26 then Char.ofNat (65 + n)
  else if n < 52 then Char.ofNat (97 + (n - 26))
  else if n < 62 then Char.ofNat (48 + (n - 52))
  else if n = 62 then Char.ofNat 43
  else Char.ofNat 47

/-- Inverse base64 alphabet lookup; `none` on a character outside the alphabet. -/
def b64CharInv (c : Char) : Option Nat :=
  if 65 ≤ c.toNat ∧ c.toNat ≤ 90 then some (c.toNat - 65)
  else if 97 ≤ c.toNat ∧ c.toNat ≤ 122 then some (c.toNat - 97 + 26)
  else if 48 ≤ c.toNat ∧ c.toNat ≤ 57 then some (c.toNat - 48 + 52)
  else if c.toNat = 43 then some 62
  else if c.toNat = 47 then some 63
  else none

/-- ASCII whitespace stripped by forgiving-base64 (TAB, LF, FF, CR, SPACE). -/
def isB64Ws (c : Char) : Bool :=
  c.toNat == 9 || c.toNat == 10 || c.toNat == 12 || c.toNat == 13 || c.toNat == 32

/-- Model of `window.btoa` on a latin1 string of byte char-codes: standard base64 with
`=` padding, three bytes to four characters. -/
def btoa : Bytes → List Char
  | [] => []
  | [b0] => [b64Char (b0 / 4), b64Char (b0 % 4 * 16), padChar, padChar]
  | [b0, b1] =>
      [b64Char (b0 / 4), b64Char (b0 % 4 * 16 + b1 / 16), b64Char (b1 % 16 * 4), padChar]
  | b0 :: b1 :: b2 :: rest =>
      b64Char (b0 / 4) :: b64Char (b0 % 4 * 16 + b1 / 16) ::
      b64Char (b1 % 16 * 4 + b2 / 64) :: b64Char (b2 % 64) :: btoa rest

/-- Forgiving-base64 step 2: remove up to two trailing `=` characters. -/
def stripPad : List Char → List Char
  | [] => []
  | [c] => if c = padChar then [] else [c]
  | [c1, c2] =>
      if c2 = padChar then (if c1 = padChar then [] else [c1]) else [c1, c2]
  | c :: rest => c :: stripPad rest

/-- Forgiving-base64 decode of a whitespace-free, padding-free character list:
four sextets to three bytes, with a final group of two or three sextets
yielding one or two bytes (excess bits discarded).  A lone trailing character
(length 1 mod 4) or a character outside the alphabet fails. -/
def decodeChars : List Char → Option Bytes
  | [] => some []
  | [c0, c1] =>
      (b64CharInv c0).bind fun s0 =>
      (b64CharInv c1).bind fun s1 =>
      some [s0 * 4 + s1 / 16]
  | [c0, c1, c2] =>
      (b64CharInv c0).bind fun s0 =>
      (b64CharInv c1).bind fun s1 =>
      (b64CharInv c2).bind fun s2 =>
      some [s0 * 4 + s1 / 16, s1 % 16 * 16 + s2 / 4]
  | c0 :: c1 :: c2 :: c3 :: rest =>
      (b64CharInv c0).bind fun s0 =>
      (b64CharInv c1).bind fun s1 =>
      (b64CharInv c2).bind fun s2 =>
      (b64CharInv c3).bind fun s3 =>
      (decodeChars rest).bind fun tl =>
      some ((s0 * 4 + s1 / 16) :: (s1 % 16 * 16 + s2 / 4) :: (s2 % 4 * 64 + s3) :: tl)
  | _ => none

/-- Model of `window.atob` (WHATWG forgiving-base64) composed with the client's
`str2ab` char-code extraction: strip ASCII whitespace, strip trailing padding
when the length is a multiple of four, fail on length 1 mod 4, decode. -/
def atob (s : List Char) : Option Bytes :=
  let t := s.filter (fun c => !isB64Ws c)
  let t2 := if t.length % 4 = 0 then stripPad t else t
  if t2.length % 4 = 1 then none else decodeChars t2

/-! ## PEM export / import of the RSA public key -/

/-- The characters of the literal `-----BEGIN PUBLIC KEY-----`. -/
def pemHeaderChars : List Char := "-----BEGIN PUBLIC KEY-----".toList

/-- The characters of the literal `-----END PUBLIC KEY-----`. -/
def pemFooterChars : List Char := "-----END PUBLIC KEY-----".toList

/-- JavaScript `String.prototype.substring(a, b)`: clamp both indices to
`[0, length]`, swap them when out of order, return the characters between. -/
def jsSubstring (s : List Char) (a b : Int) : List Char :=
  let n : Int := s.length
  let a2 := max 0 (min a n)
  let b2 := max 0 (min b n)
  let lo := min a2 b2
  let hi := max a2 b2
  (s.take hi.toNat).drop lo.toNat

/-- Source `exportRSAKey`: the SPKI bytes of the public key, base64 encoded and
wrapped in PEM delimiters with a newline after the header and before the
footer (source: template literal in `exportRSAKey`). -/
def exportRSAKey (spki : Bytes) : List Char :=
  pemHeaderChars ++ Char.ofNat 10 :: (btoa spki ++ Char.ofNat 10 :: pemFooterChars)

/-- Source `importRSAKey`: take `pem.substring(header.length, pem.length -
footer.length - 1)`, base64-decode it (`window.atob` then `str2ab`) and import
the resulting SPKI bytes.  `crypto.subtle.importKey('spki', ...)` is modelled
as the identity on the key material, so the result is the SPKI byte list. -/
def importRSAKey (pem : List Char) : Option Bytes :=
  atob (jsSubstring pem (pemHeaderChars.length : Nat)
    ((pem.length : Int) - (pemFooterChars.length : Nat) - 1))

/-! ## Envelopes (`MessageData`) -/

/-- Source enum `MessageDataEvent`: special event tag of an envelope.  The wire codes are
0=Typing, 1=StopTyping, 2=Edit, 3=Delivered, 4=RSAKeyShare, 5=AESKeyShare. -/
inductive MessageDataEvent
  | Typing
  | StopTyping
  | Edit
  | Delivered
  | RSAKeyShare
  | AESKeyShare
deriving DecidableEq

/-- The `body` string of an envelope, by the shape the client serializes into
it: plain text (the PEM key of `RSAKeyShare`, or the empty string of control
events), a JSON number array of ciphertext bytes, or the JSON pair
`[ivBytes, wrappedKeyBytes]` of `AESKeyShare`.  `JSON.parse` after
`JSON.stringify` is the identity on these values, so the serialized string is
modelled by the value itself. -/
inductive MsgBody
  | text (s : String)
  | bytes (b : Bytes)
  | pair (iv : Bytes) (wrapped : Bytes)
deriving DecidableEq

/-- A `MessageData` envelope.  The source field `from` is a Lean keyword and
is embedded as `fromPeer`. -/
structure MessageData where
  fromPeer : String
  body : MsgBody
  time : String
  id : String
  event : Option MessageDataEvent
  prev : Option String
deriving DecidableEq

/-- The `Delivered` reply built in the `Edit` and default receive cases:
`{from: peer.id, body: '', time: '', id: messageData.id, event: Delivered}`. -/
def deliveredReply (selfId mid : String) : MessageData :=
  { fromPeer := selfId, body := .text "", time := "", id := mid,
    event := some .Delivered, prev := none }

/-- Model of `String.prototype.endsWith` on the character sequence (used instead of
`String.endsWith` so that concrete evaluations reduce inside the kernel). -/
def strEndsWith (s suf : String) : Bool :=
  suf.data.isSuffixOf s.data

/-- Drop the last `n` characters of a string. -/
def strDropRight (s : String) (n : Nat) : String :=
  ⟨s.data.take (s.data.length - n)⟩

/-! ## Conversation view nodes -/

/-- One child node of a conversation `span` (`id`, `className`, `innerHTML`). -/
structure ChatNode where
  id : String
  className : String
  innerHTML : String
deriving DecidableEq

/-- The delivered mark appended to an acknowledged node. -/
def deliveredMark : String := " <small><small><small><i>✓</i></small></small></small>"

/-- The editing mark shown on the node currently being edited. -/
def editMark : String := " <small><small><small><i>✎</i></small></small></small>"

/-- The time suffix appended after a message body. -/
def timeSuffix (t : String) : String :=
  " <small><small><small><i>" ++ t ++ "</i></small></small></small>"

/-- The typing indicator paragraph built by the `Typing` case. -/
def typingNode (mid : String) : ChatNode :=
  { id := mid, className := "typing", innerHTML := "Typing..." }

/-- Whether `el.lastChild` exists and has `className === 'typing'`. -/
def lastIsTyping (v : List ChatNode) : Bool :=
  match v.getLast? with
  | some n => n.className == "typing"
  | none => false

/-- Number of typing indicator nodes in a view. -/
def countTyping (v : List ChatNode) : Nat :=
  (v.filter (fun n => n.className == "typing")).length

/-! ## Receive handlers (`peer.on('connection')` data callback cases) -/

/-- Source `case MessageDataEvent.Typing`: build the indicator paragraph; if the last
child is already a typing indicator, return early; else set its id and append. -/
def handleTyping (v : List ChatNode) (mid : String) : List ChatNode :=
  if lastIsTyping v then v else v ++ [typingNode mid]

/-- Source `case MessageDataEvent.StopTyping`: remove the last child iff it is a
typing indicator. -/
def handleStopTyping (v : List ChatNode) : List ChatNode :=
  if lastIsTyping v then v.dropLast else v

/-- Helper for `handleDelivered`, walking the child list from its end (the
reversed list): the first node matching the id and not yet carrying the
delivered mark gets the mark appended to its `innerHTML`. -/
def handleDeliveredAux : List ChatNode → String → Option (List ChatNode)
  | [], _ => none
  | n :: rest, mid =>
      if n.id == mid && !(strEndsWith n.innerHTML deliveredMark) then
        some ({ n with innerHTML := n.innerHTML ++ deliveredMark } :: rest)
      else
        (handleDeliveredAux rest mid).map (n :: ·)

/-- Source `case MessageDataEvent.Delivered`: the loop scans `el.children` from the
last index down for a node with the envelope's id that does not yet end with
the delivered mark and appends the mark to it.  When no such node exists the
loop leaves `i = -1` and `el.children[-1].innerHTML` is an access on
`undefined`: the handler throws a TypeError, modelled as `none`. -/
def handleDelivered (v : List ChatNode) (mid : String) : Option (List ChatNode) :=
  (handleDeliveredAux v.reverse mid).map List.reverse

/-! ## AES key table and the symmetric cipher paths -/

/-- Source table `aesKeys`: per-peer-id entry `[iv, key]`.  The `CryptoKey` handle is
modelled by its raw bytes (`exportKey('raw')` / `importKey('raw')` are then
the identity). -/
abbrev AesKeyTable := String → Option (Bytes × Bytes)

/-- The empty `aesKeys` table. -/
def aesKeysEmpty : AesKeyTable := fun _ => none

/-- Assignment `aesKeys[peerId] = [iv, key]`. -/
def keysInsert (keys : AesKeyTable) (peerId : String) (iv k : Bytes) : AesKeyTable :=
  fun x => if x = peerId then some (iv, k) else keys x

/-- The `sendBar.onkeydown` Enter branch encryption:
`crypto.subtle.encrypt({name:'AES-CBC', iv: aesKeys[to][0]}, aesKeys[to][1], M)`.
`aesEnc` is the platform AES-CBC primitive (iv, key, plaintext).  A missing
`aesKeys[to]` entry makes `aesKeys[to][0]` throw, modelled as `none`. -/
def sendEncrypt (aesEnc : Bytes → Bytes → Bytes → Bytes) (keys : AesKeyTable)
    (toPeer : String) (m : Bytes) : Option Bytes :=
  (keys toPeer).map (fun ck => aesEnc ck.1 ck.2 m)

/-- The receive-path decryption used by the default and `Edit` cases:
`crypto.subtle.decrypt({name:'AES-CBC', iv: aesKeys[from][0]}, aesKeys[from][1], C)`. -/
def receiveDecrypt (aesDec : Bytes → Bytes → Bytes → Bytes) (keys : AesKeyTable)
    (fromP : String) (c : Bytes) : Option Bytes :=
  (keys fromP).map (fun ck => aesDec ck.1 ck.2 c)

/-- The `default` receive case for a plain message: decrypt the body with the
sender's `aesKeys` entry (throwing, i.e. `none`, when the entry is missing),
build a `received` paragraph holding the decoded text plus time suffix, remove
a trailing typing indicator, reply with a `Delivered` envelope and append the
paragraph at the end of the view.  `textDecode` is the platform
`TextDecoder().decode`. -/
def handleDefaultMsg (aesDec : Bytes → Bytes → Bytes → Bytes)
    (textDecode : Bytes → String) (keys : AesKeyTable) (selfId : String)
    (v : List ChatNode) (fromP mid time : String) (cipher : Bytes) :
    Option (List ChatNode × MessageData) :=
  match receiveDecrypt aesDec keys fromP cipher with
  | none => none
  | some plain =>
      let node : ChatNode :=
        { id := mid, className := "received",
          innerHTML := textDecode plain ++ timeSuffix time }
      let v1 := if lastIsTyping v then v.dropLast else v
      some (v1 ++ [node], deliveredReply selfId mid)

/-! ## The document: all conversation views, in document order -/

/-- The document body, as the ordered list of conversation views: peer id of
the containing `span` paired with its child nodes. -/
abbrev ChatDoc := List (String × List ChatNode)

/-- First node of one view with the given id (document-order search). -/
def viewGetNode (v : List ChatNode) (nid : String) : Option ChatNode :=
  v.find? (fun n => n.id == nid)

/-- Rewrite the first node of one view with the given id. -/
def viewSetNode : List ChatNode → String → (ChatNode → ChatNode) → List ChatNode
  | [], _, _ => []
  | n :: rest, nid, f =>
      if n.id == nid then f n :: rest else n :: viewSetNode rest nid f

/-- Model of `document.getElementById` over message nodes: the first node with the
given id in document order, across all conversation views. -/
def docGetNode : ChatDoc → String → Option ChatNode
  | [], _ => none
  | (_, v) :: rest, nid =>
      match viewGetNode v nid with
      | some n => some n
      | none => docGetNode rest nid

/-- Rewrite the first node with the given id in document order. -/
def docSetNode : ChatDoc → String → (ChatNode → ChatNode) → ChatDoc
  | [], _, _ => []
  | (p, v) :: rest, nid, f =>
      if (viewGetNode v nid).isSome then (p, viewSetNode v nid f) :: rest
      else (p, v) :: docSetNode rest nid f

/-- Rewrite the view of the given peer id (the `span` with that element id). -/
def docSetView : ChatDoc → String → (List ChatNode → List ChatNode) → ChatDoc
  | [], _, _ => []
  | (p, v) :: rest, pid, f =>
      if p = pid then (p, f v) :: rest else (p, v) :: docSetView rest pid f

/-- Source `case MessageDataEvent.Edit`: decrypt the body with the sender's
`aesKeys` entry (a missing entry throws, `none`), resolve the target by
`document.getElementById(messageData.id)` — a document-global lookup, throwing
(`none`) when no node matches — replace that node's content with the decrypted
text plus time suffix, remove a trailing typing indicator from the sender's
view `el`, and reply to the sender with a `Delivered` envelope. -/
def handleEditMsg (aesDec : Bytes → Bytes → Bytes → Bytes)
    (textDecode : Bytes → String) (keys : AesKeyTable) (selfId : String)
    (doc : ChatDoc) (fromP mid time : String) (cipher : Bytes) :
    Option (ChatDoc × MessageData) :=
  match receiveDecrypt aesDec keys fromP cipher with
  | none => none
  | some plain =>
      match docGetNode doc mid with
      | none => none
      | some _ =>
          let newHTML := textDecode plain ++ timeSuffix time
          let doc1 := docSetNode doc mid (fun n => { n with innerHTML := newHTML })
          let doc2 := docSetView doc1 fromP
            (fun v => if lastIsTyping v then v.dropLast else v)
          some (doc2, deliveredReply selfId mid)

/-! ## Key exchange handlers -/

/-- Source `case MessageDataEvent.RSAKeyShare` (responder): store a fresh
`[iv, key]` under the sender's id, import the sender's PEM public key from the
body, wrap the raw AES key bytes under it with RSA-OAEP (`rsaEnc`, the
platform primitive applied to the imported SPKI key) and send back an
`AESKeyShare` envelope with body `[Array.from(iv), Array.from(wrapped)]`. -/
def handleRSAKeyShare (rsaEnc : Bytes → Bytes → Bytes) (keys : AesKeyTable)
    (selfId fromP : String) (pemBody : List Char) (freshIv freshKey : Bytes) :
    Option (AesKeyTable × MessageData) :=
  let keys1 := keysInsert keys fromP freshIv freshKey
  match importRSAKey pemBody with
  | none => none
  | some pub =>
      some (keys1,
        { fromPeer := selfId, body := .pair freshIv (rsaEnc pub freshKey),
          time := "", id := "", event := some .AESKeyShare, prev := none })

/-- Source `case MessageDataEvent.AESKeyShare` (initiator): parse the body pair,
unwrap the AES key bytes with the local RSA private key (`rsaDec`, the
platform RSA-OAEP decrypt under `keyPair.privateKey`) and store
`[iv, importKey('raw', unwrapped)]` under the sender's id. -/
def handleAESKeyShare (rsaDec : Bytes → Bytes) (keys : AesKeyTable)
    (fromP : String) (body : MsgBody) : Option AesKeyTable :=
  match body with
  | .pair iv wrapped => some (keysInsert keys fromP iv (rsaDec wrapped))
  | _ => none

/-! ## Send-path local echo and the double-click edit-initiation handler -/

/-- The `sent` paragraph built by the `send` default case for message id
`mid`: decrypted text plus time suffix. -/
def mkSentNode (mid time txt : String) : ChatNode :=
  { id := mid, className := "sent", innerHTML := txt ++ timeSuffix time }

/-- The `send` default-case insertion: insert the new paragraph before a
trailing typing indicator when one is present, else append at the end. -/
def sendEcho (v : List ChatNode) (node : ChatNode) : List ChatNode :=
  match v.getLast? with
  | some l => if l.className == "typing" then v.dropLast ++ [node, l] else v ++ [node]
  | none => v ++ [node]

/-- Process-wide UI state: the `editing` and `replying` cursors and the
document of conversation views. -/
structure UIState where
  editing : Option String
  replying : Option String
  doc : ChatDoc
deriving DecidableEq

/-- The anchored regex replace `s.replace(/ ...suf...$/g, newSuf)` for the
literal mark strings: swap the suffix when present, else leave unchanged. -/
def swapSuffix (s suf newSuf : String) : String :=
  if strEndsWith s suf then strDropRight s suf.length ++ newSuf else s

/-- Steps of `paragraph.ondblclick` after the previous-edit revert:
`editing = paragraph.id`, then — only if the clicked node's content ends with
the delivered mark — swap that mark for the editing mark; otherwise throw
`Cannot Edit Non-Delivered Message.` (second component of the result).  The
mutations before the throw persist.  The `none` branch of the lookup is
unreachable for a node attached to the document (in the source `paragraph` is
a live reference, so the check reads the node directly). -/
def ondblclickRest (st : UIState) (pid : String) : UIState × Option String :=
  let st3 : UIState := { st with editing := some pid }
  match docGetNode st3.doc pid with
  | some p =>
      if strEndsWith p.innerHTML deliveredMark then
        let doc4 := docSetNode st3.doc pid
          (fun n => { n with innerHTML := swapSuffix n.innerHTML deliveredMark editMark })
        ({ st3 with doc := doc4 }, none)
      else (st3, some "Cannot Edit Non-Delivered Message.")
  | none => (st3, some "detached node")

/-- Source `paragraph.ondblclick` on a sent node with id `pid`: clear
`replying`; when `editing` names an id, look it up with
`document.getElementById(editing)` — when no element in the document has that
id the result is null and `prev.innerHTML` throws a TypeError, ending the
handler with `editing` and the document unchanged; when the node exists its
editing glyph is reverted to the delivered mark.  Then (`ondblclickRest`) set
`editing` to the clicked node's id and toggle the delivered mark to the
editing mark, or throw when the mark is absent. -/
def ondblclick (st : UIState) (pid : String) : UIState × Option String :=
  let st1 : UIState := { st with replying := none }
  match st1.editing with
  | some eid =>
      match docGetNode st1.doc eid with
      | none => (st1, some "TypeError: cannot set innerHTML of null")
      | some _ =>
          let doc2 := docSetNode st1.doc eid
            (fun n => { n with innerHTML := swapSuffix n.innerHTML editMark deliveredMark })
          ondblclickRest { st1 with doc := doc2 } pid
  | none => ondblclickRest st1 pid

/-- The typing-indicator view invariant: every node other than the last is
not a typing indicator (hence at most one indicator, and when present it is
the last child). -/
def typingInvariant (v : List ChatNode) : Bool :=
  v.dropLast.all (fun n => !(n.className == "typing"))

/-! ## Helper lemmas: base64 round-trip -/

theorem b64Char_spec : ∀ s < 64,
    b64CharInv (b64Char s) = some s ∧ isB64Ws (b64Char s) = false ∧ b64Char s ≠ padChar := by
  decide

theorem isB64Ws_padChar : isB64Ws padChar = false := by decide

theorem stripPad_cons3 (c x y : Char) (t : List Char) :
    stripPad (c :: x :: y :: t) = c :: stripPad (x :: y :: t) := rfl

theorem stripPad_two (c1 c2 : Char) :
    stripPad [c1, c2] =
      if c2 = padChar then (if c1 = padChar then [] else [c1]) else [c1, c2] := rfl

theorem btoa_shape (r : Bytes) (h : r ≠ []) :
    ∃ y0 y1 y2 y3 t, btoa r = y0 :: y1 :: y2 :: y3 :: t := by
  cases r with
  | nil => exact absurd rfl h
  | cons b0 t0 =>
    cases t0 with
    | nil => exact ⟨_, _, _, _, [], rfl⟩
    | cons b1 t1 =>
      cases t1 with
      | nil => exact ⟨_, _, _, _, [], rfl⟩
      | cons b2 t2 => exact ⟨_, _, _, _, btoa t2, rfl⟩

theorem btoa_spec : ∀ (n : Nat) (bytes : Bytes), bytes.length ≤ n →
    (∀ b ∈ bytes, b < 256) →
    (btoa bytes).length % 4 = 0 ∧
    (∀ c ∈ btoa bytes, isB64Ws c = false) ∧
    (stripPad (btoa bytes)).length % 4 ≠ 1 ∧
    decodeChars (stripPad (btoa bytes)) = some bytes := by
  intro n
  induction n with
  | zero =>
    intro bytes hlen _
    have hnil : bytes = [] := List.length_eq_zero.mp (Nat.le_zero.mp hlen)
    subst hnil
    exact ⟨rfl, by simp [btoa], by simp [btoa, stripPad], rfl⟩
  | succ n ih =>
    intro bytes hlen hb
    cases bytes with
    | nil => exact ⟨rfl, by simp [btoa], by simp [btoa, stripPad], rfl⟩
    | cons b0 t0 =>
      have hb0 : b0 < 256 := hb b0 (by simp)
      cases t0 with
      | nil =>
        have h0 := b64Char_spec (b0 / 4) (by omega)
        have h1 := b64Char_spec (b0 % 4 * 16) (by omega)
        have hbt : btoa [b0] = [b64Char (b0 / 4), b64Char (b0 % 4 * 16), padChar, padChar] := rfl
        have hstrip : stripPad (btoa [b0]) = [b64Char (b0 / 4), b64Char (b0 % 4 * 16)] := by
          rw [hbt, stripPad_cons3, stripPad_cons3, stripPad_two]
          simp
        refine ⟨by rw [hbt]; simp, ?_, by rw [hstrip]; simp, ?_⟩
        · intro c hc
          rw [hbt] at hc
          simp only [List.mem_cons, List.not_mem_nil, or_false] at hc
          rcases hc with rfl | rfl | rfl | rfl
          · exact h0.2.1
          · exact h1.2.1
          · exact isB64Ws_padChar
          · exact isB64Ws_padChar
        · rw [hstrip]
          simp [decodeChars, h0.1, h1.1]
          omega
      | cons b1 t1 =>
        have hb1 : b1 < 256 := hb b1 (by simp)
        cases t1 with
        | nil =>
          have h0 := b64Char_spec (b0 / 4) (by omega)
          have h1 := b64Char_spec (b0 % 4 * 16 + b1 / 16) (by omega)
          have h2 := b64Char_spec (b1 % 16 * 4) (by omega)
          have hbt : btoa [b0, b1] =
              [b64Char (b0 / 4), b64Char (b0 % 4 * 16 + b1 / 16), b64Char (b1 % 16 * 4),
               padChar] := rfl
          have hstrip : stripPad (btoa [b0, b1]) =
              [b64Char (b0 / 4), b64Char (b0 % 4 * 16 + b1 / 16), b64Char (b1 % 16 * 4)] := by
            rw [hbt, stripPad_cons3, stripPad_cons3, stripPad_two]
            simp [h2.2.2]
          refine ⟨by rw [hbt]; simp, ?_, by rw [hstrip]; simp, ?_⟩
          · intro c hc
            rw [hbt] at hc
            simp only [List.mem_cons, List.not_mem_nil, or_false] at hc
            rcases hc with rfl | rfl | rfl | rfl
            · exact h0.2.1
            · exact h1.2.1
            · exact h2.2.1
            · exact isB64Ws_padChar
          · rw [hstrip]
            simp [decodeChars, h0.1, h1.1, h2.1]
            omega
        | cons b2 t2 =>
          have hb2 : b2 < 256 := hb b2 (by simp)
          obtain ⟨ihA, ihB, ihC, ihD⟩ := ih t2
            (by simp only [List.length_cons] at hlen; omega)
            (fun b hbm => hb b (by simp [hbm]))
          have h0 := b64Char_spec (b0 / 4) (by omega)
          have h1 := b64Char_spec (b0 % 4 * 16 + b1 / 16) (by omega)
          have h2 := b64Char_spec (b1 % 16 * 4 + b2 / 64) (by omega)
          have h3 := b64Char_spec (b2 % 64) (by omega)
          have hbt : btoa (b0 :: b1 :: b2 :: t2) =
              b64Char (b0 / 4) :: b64Char (b0 % 4 * 16 + b1 / 16) ::
              b64Char (b1 % 16 * 4 + b2 / 64) :: b64Char (b2 % 64) :: btoa t2 := rfl
          have hstrip : stripPad (btoa (b0 :: b1 :: b2 :: t2)) =
              b64Char (b0 / 4) :: b64Char (b0 % 4 * 16 + b1 / 16) ::
              b64Char (b1 % 16 * 4 + b2 / 64) :: b64Char (b2 % 64) :: stripPad (btoa t2) := by
            rw [hbt]
            rcases Decidable.em (t2 = []) with ht | ht
            · subst ht
              rw [show btoa ([] : Bytes) = [] from rfl, stripPad_cons3, stripPad_cons3,
                stripPad_two]
              simp [h3.2.2, stripPad]
            · obtain ⟨y0, y1, y2, y3, t, hy⟩ := btoa_shape t2 ht
              rw [hy, stripPad_cons3, stripPad_cons3, stripPad_cons3, stripPad_cons3]
          refine ⟨?_, ?_, ?_, ?_⟩
          · rw [hbt]
            simp only [List.length_cons]
            omega
          · intro c hc
            rw [hbt] at hc
            simp only [List.mem_cons] at hc
            rcases hc with rfl | rfl | rfl | rfl | hc
            · exact h0.2.1
            · exact h1.2.1
            · exact h2.2.1
            · exact h3.2.1
            · exact ihB c hc
          · rw [hstrip]
            simp only [List.length_cons]
            omega
          · rw [hstrip]
            have he0 : b0 / 4 * 4 + (b0 % 4 * 16 + b1 / 16) / 16 = b0 := by omega
            have he1 : (b0 % 4 * 16 + b1 / 16) % 16 * 16 + (b1 % 16 * 4 + b2 / 64) / 4 = b1 := by
              omega
            have he2 : (b1 % 16 * 4 + b2 / 64) % 4 * 64 + b2 % 64 = b2 := by omega
            simp [decodeChars, h0.1, h1.1, h2.1, h3.1, ihD, he0, he1, he2]

theorem atob_lf_btoa (bytes : Bytes) (hb : ∀ b ∈ bytes, b < 256) :
    atob (Char.ofNat 10 :: btoa bytes) = some bytes := by
  obtain ⟨hA, hB, hC, hD⟩ := btoa_spec bytes.length bytes le_rfl hb
  have hfilter :
      (Char.ofNat 10 :: btoa bytes).filter (fun c => !isB64Ws c) = btoa bytes := by
    rw [List.filter_cons_of_neg (by decide)]
    exact List.filter_eq_self.mpr (fun c hc => by simp [hB c hc])
  simp only [atob]
  rw [hfilter, if_pos hA, if_neg hC]
  exact hD

theorem importRSAKey_exportRSAKey (spki : Bytes) (hb : ∀ b ∈ spki, b < 256) :
    importRSAKey (exportRSAKey spki) = some spki := by
  have hassoc : exportRSAKey spki =
      (pemHeaderChars ++ Char.ofNat 10 :: btoa spki) ++ Char.ofNat 10 :: pemFooterChars := by
    simp [exportRSAKey]
  have hpemlen : (exportRSAKey spki).length = (btoa spki).length + 52 := by
    rw [hassoc]
    simp only [List.length_append, List.length_cons]
    rw [show pemHeaderChars.length = 26 from rfl, show pemFooterChars.length = 24 from rfl]
    omega
  have hsub : jsSubstring (exportRSAKey spki) (pemHeaderChars.length : Nat)
      (((exportRSAKey spki).length : Int) - (pemFooterChars.length : Nat) - 1) =
      Char.ofNat 10 :: btoa spki := by
    simp only [jsSubstring]
    rw [show pemHeaderChars.length = 26 from rfl, show pemFooterChars.length = 24 from rfl,
      hpemlen]
    have e1 : max 0 (min ((26 : Nat) : Int) (((btoa spki).length + 52 : Nat) : Int)) =
        (26 : Int) := by omega
    have e2 : max 0 (min ((((btoa spki).length + 52 : Nat) : Int) - (24 : Nat) - 1)
        (((btoa spki).length + 52 : Nat) : Int)) = ((btoa spki).length : Int) + 27 := by
      omega
    rw [e1]
    rw [e2]
    have e3 : min (26 : Int) (((btoa spki).length : Int) + 27) = (26 : Int) := by omega
    have e4 : max (26 : Int) (((btoa spki).length : Int) + 27) =
        ((btoa spki).length : Int) + 27 := by omega
    rw [e3, e4]
    have e5 : (((btoa spki).length : Int) + 27).toNat = (btoa spki).length + 27 := by omega
    have e6 : ((26 : Int)).toNat = 26 := by omega
    rw [e5, e6, hassoc]
    rw [List.take_left' (by simp [show pemHeaderChars.length = 26 from rfl]; omega)]
    rw [List.drop_left' (show pemHeaderChars.length = 26 from rfl)]
  simp only [importRSAKey]
  rw [hsub]
  exact atob_lf_btoa spki hb

/-! ## Helper lemmas: conversation views -/

theorem lastIsTyping_concat (v : List ChatNode) (n : ChatNode) :
    lastIsTyping (v ++ [n]) = (n.className == "typing") := by
  simp [lastIsTyping, List.getLast?_concat]

theorem lastIsTyping_false_of_countTyping_zero (v : List ChatNode)
    (h : countTyping v = 0) : lastIsTyping v = false := by
  unfold countTyping at h
  rw [List.length_eq_zero, List.filter_eq_nil_iff] at h
  unfold lastIsTyping
  cases hv : v.getLast? with
  | none => rfl
  | some n =>
    have hmem : n ∈ v := List.mem_of_mem_getLast? hv
    simpa using h n hmem

theorem countTyping_concat_typing (v : List ChatNode) (mid : String) :
    countTyping (v ++ [typingNode mid]) = countTyping v + 1 := by
  simp [countTyping, List.filter_append, typingNode]

theorem all_nonTyping_of_invariant (v : List ChatNode)
    (h1 : typingInvariant v = true) (h2 : lastIsTyping v = false) :
    v.all (fun n => !(n.className == "typing")) = true := by
  induction v with
  | nil => rfl
  | cons n t ih =>
    cases t with
    | nil =>
      simp only [lastIsTyping, List.getLast?_singleton] at h2
      simp [h2]
    | cons m t' =>
      have h1' : typingInvariant (m :: t') = true := by
        simp only [typingInvariant, List.dropLast_cons₂, List.all_cons,
          Bool.and_eq_true] at h1
        exact h1.2
      have hn : (n.className == "typing") = false := by
        simp only [typingInvariant, List.dropLast_cons₂, List.all_cons,
          Bool.and_eq_true] at h1
        simpa using h1.1
      have h2' : lastIsTyping (m :: t') = false := by
        simpa [lastIsTyping] using h2
      have := ih h1' h2'
      simp only [List.all_cons, Bool.and_eq_true] at this ⊢
      exact ⟨by simp [hn], this⟩

theorem typingInvariant_dropLast (v : List ChatNode)
    (h : typingInvariant v = true) : typingInvariant v.dropLast = true := by
  unfold typingInvariant at h ⊢
  rw [List.all_eq_true] at h ⊢
  intro n hn
  exact h n (List.Sublist.mem hn (List.dropLast_sublist v.dropLast))

theorem typingInvariant_concat (v : List ChatNode) (n : ChatNode)
    (h : v.all (fun x => !(x.className == "typing")) = true) :
    typingInvariant (v ++ [n]) = true := by
  unfold typingInvariant
  rw [List.dropLast_concat]
  exact h

/-! ## Helper lemmas: key table and document lookups -/

theorem keysInsert_self (keys : AesKeyTable) (p : String) (iv k : Bytes) :
    keysInsert keys p iv k p = some (iv, k) := by
  simp [keysInsert]

theorem viewGetNode_eq_none (v : List ChatNode) (mid : String)
    (h : ∀ n ∈ v, n.id ≠ mid) : viewGetNode v mid = none := by
  unfold viewGetNode
  rw [List.find?_eq_none]
  intro x hx
  simpa using h x hx

theorem viewGetNode_append (v1 v2 : List ChatNode) (p : ChatNode) (mid : String)
    (h1 : ∀ n ∈ v1, n.id ≠ mid) (hp : p.id = mid) :
    viewGetNode (v1 ++ p :: v2) mid = some p := by
  induction v1 with
  | nil =>
    unfold viewGetNode
    simp [List.find?_cons, hp]
  | cons n t ih =>
    have hn : (n.id == mid) = false := by simpa using h1 n (by simp)
    have ht := ih (fun x hx => h1 x (by simp [hx]))
    unfold viewGetNode at ht ⊢
    simpa [List.find?_cons, hn] using ht

theorem viewSetNode_append (v1 v2 : List ChatNode) (p : ChatNode) (mid : String)
    (f : ChatNode → ChatNode) (h1 : ∀ n ∈ v1, n.id ≠ mid) (hp : p.id = mid) :
    viewSetNode (v1 ++ p :: v2) mid f = v1 ++ f p :: v2 := by
  induction v1 with
  | nil => simp [viewSetNode, hp]
  | cons n t ih =>
    have hn : (n.id == mid) = false := by simpa using h1 n (by simp)
    have ht := ih (fun x hx => h1 x (by simp [hx]))
    simp only [List.cons_append, viewSetNode, hn, Bool.false_eq_true, if_false]
    rw [show t.append (p :: v2) = t ++ p :: v2 from rfl, ht]

/-! ## Claims -/

/-- C5: for every RSA public key (SPKI byte sequence `k`),
`importRSAKey (exportRSAKey k)` recovers key material byte-identical to `k`:
the export produces the delimited PEM text and the import strips the
delimiters and inverts the base64 encoding exactly (the leading newline kept
by `substring` is removed by `atob`'s forgiving whitespace stripping). -/
theorem C5_export_import_roundtrip (k : Bytes) (hk : ∀ b ∈ k, b < 256) :
    importRSAKey (exportRSAKey k) = some k :=
  importRSAKey_exportRSAKey k hk

theorem C5_export_import_roundtrip_witness :
    (∀ b ∈ [48, 130, 1, 34, 0, 255, 16], b < 256) ∧
    importRSAKey (exportRSAKey [48, 130, 1, 34, 0, 255, 16]) =
      some [48, 130, 1, 34, 0, 255, 16] :=
  ⟨by decide, C5_export_import_roundtrip [48, 130, 1, 34, 0, 255, 16] (by decide)⟩

/-- C6: for every byte sequence `m` and every established ConversationKey
`(iv, k)` present in the sender's table under the recipient's id and in the
recipient's table under the sender's id, decrypting (receive path) the
ciphertext produced by encrypting (send path) under that same pair yields
exactly `m`, assuming the platform AES-CBC decrypt-of-encrypt identity. -/
theorem C6_symmetric_roundtrip (aesEnc aesDec : Bytes → Bytes → Bytes → Bytes)
    (hlaw : ∀ iv k m, aesDec iv k (aesEnc iv k m) = m)
    (keysS keysR : AesKeyTable) (toPeer fromP : String) (iv k : Bytes)
    (hS : keysS toPeer = some (iv, k)) (hR : keysR fromP = some (iv, k)) (m : Bytes) :
    (sendEncrypt aesEnc keysS toPeer m).bind (receiveDecrypt aesDec keysR fromP) =
      some m := by
  simp [sendEncrypt, receiveDecrypt, hS, hR, hlaw]

theorem C6_symmetric_roundtrip_witness :
    (∀ iv k m, (fun (_ _ : Bytes) (c : Bytes) => c.reverse) iv k
        ((fun (_ _ : Bytes) (p : Bytes) => p.reverse) iv k m) = m) ∧
    keysInsert aesKeysEmpty "B" [7] [9] "B" = some ([7], [9]) ∧
    (sendEncrypt (fun _ _ p => p.reverse) (keysInsert aesKeysEmpty "B" [7] [9]) "B"
        [1, 2, 3]).bind
      (receiveDecrypt (fun _ _ c => c.reverse) (keysInsert aesKeysEmpty "B" [7] [9]) "B") =
      some [1, 2, 3] :=
  ⟨fun _ _ m => List.reverse_reverse m, by decide,
    C6_symmetric_roundtrip (fun _ _ p => p.reverse) (fun _ _ c => c.reverse)
      (fun _ _ m => List.reverse_reverse m)
      (keysInsert aesKeysEmpty "B" [7] [9]) (keysInsert aesKeysEmpty "B" [7] [9])
      "B" "B" [7] [9] (by decide) (by decide) [1, 2, 3]⟩

/-- C7: handling a `Typing` envelope when the last view node is already a
typing indicator is a no-op, so two consecutive `Typing` envelopes act as
one; starting from a view with no typing indicator, two consecutive `Typing`
envelopes leave exactly one typing indicator node. -/
theorem C7_typing_idempotent (v : List ChatNode) (m1 m2 : String) :
    handleTyping (handleTyping v m1) m2 = handleTyping v m1 ∧
    (lastIsTyping v = true → handleTyping v m1 = v) ∧
    (countTyping v = 0 →
      countTyping (handleTyping (handleTyping v m1) m2) = 1) := by
  have hidem : handleTyping (handleTyping v m1) m2 = handleTyping v m1 := by
    by_cases h : lastIsTyping v
    · simp [handleTyping, h]
    · have h' : lastIsTyping v = false := by simpa using h
      have happ : lastIsTyping (v ++ [typingNode m1]) = true := by
        rw [lastIsTyping_concat]
        rfl
      simp [handleTyping, h', happ]
  refine ⟨hidem, fun h => by simp [handleTyping, h], fun h0 => ?_⟩
  rw [hidem]
  have h' := lastIsTyping_false_of_countTyping_zero v h0
  rw [handleTyping, h']
  simp only [Bool.false_eq_true, if_false]
  rw [countTyping_concat_typing, h0]

theorem C7_typing_idempotent_witness :
    (countTyping [ChatNode.mk "a" "received" "hi"] = 0) ∧
    countTyping
      (handleTyping (handleTyping [ChatNode.mk "a" "received" "hi"] "t1") "t2") = 1 :=
  ⟨by decide,
    (C7_typing_idempotent [ChatNode.mk "a" "received" "hi"] "t1" "t2").2.2 (by decide)⟩

/-- C8: handling a `StopTyping` envelope when the last view node is not a
typing indicator is a no-op (no node removed, no error — the handler is
total); when the last node is a typing indicator, exactly that last node is
removed. -/
theorem C8_stopTyping_noop_or_remove (v : List ChatNode) :
    (lastIsTyping v = false → handleStopTyping v = v) ∧
    (lastIsTyping v = true → handleStopTyping v = v.dropLast) := by
  constructor <;> intro h <;> simp [handleStopTyping, h]

theorem C8_stopTyping_noop_or_remove_witness :
    (lastIsTyping [ChatNode.mk "a" "received" "hi", typingNode "t"] = true) ∧
    handleStopTyping [ChatNode.mk "a" "received" "hi", typingNode "t"] =
      [ChatNode.mk "a" "received" "hi", typingNode "t"].dropLast :=
  ⟨by decide,
    (C8_stopTyping_noop_or_remove [ChatNode.mk "a" "received" "hi", typingNode "t"]).2
      (by decide)⟩

set_option maxRecDepth 4096 in
/-- C2: [refuting evaluation] the claim says a `Delivered` envelope whose id
matches no child node (or only nodes already carrying the delivered mark)
completes without throwing and leaves the view unchanged.  In the code the
backward scan then terminates with `i = -1` and `el.children[i].innerHTML +=`
dereferences `undefined`, throwing a TypeError — modelled by
`handleDelivered` returning `none` (first two conjuncts).  The third conjunct
shows the in-spec behaviour on a match: the most recent unmarked node gets
the mark. -/
theorem C2_delivered_unknown_id_throws :
    handleDelivered [ChatNode.mk "a" "received" "hello"] "b" = none ∧
    handleDelivered [ChatNode.mk "a" "sent" ("hello" ++ deliveredMark)] "a" = none ∧
    handleDelivered [ChatNode.mk "a" "sent" ("old" ++ deliveredMark),
        ChatNode.mk "a" "sent" "new"] "a" =
      some [ChatNode.mk "a" "sent" ("old" ++ deliveredMark),
        ChatNode.mk "a" "sent" ("new" ++ deliveredMark)] := by
  refine ⟨rfl, ?_, ?_⟩ <;> decide

/-- C3: [refuting evaluation] the claim says that with no ConversationKey
entry for the sender, the receive handler neither decrypts nor throws and
drops the envelope.  In the code both the default (plain-message) case and
the `Edit` case evaluate `aesKeys[messageData.from][0]` with
`aesKeys[messageData.from]` undefined, throwing a TypeError inside the
handler — modelled by `handleDefaultMsg` / `handleEditMsg` returning `none`
on the empty key table. -/
theorem C3_missing_key_throws :
    handleDefaultMsg (fun _ _ c => c) (fun _ => "") aesKeysEmpty "me"
      [ChatNode.mk "a" "received" "hi"] "B" "m1" "12:00" [1, 2, 3] = none ∧
    handleEditMsg (fun _ _ c => c) (fun _ => "") aesKeysEmpty "me"
      [("B", [ChatNode.mk "m1" "received" "hi"])] "B" "m1" "12:00" [1, 2, 3] = none :=
  ⟨rfl, rfl⟩

set_option maxRecDepth 8192 in
/-- C4: [counterexample] the claim says a double-click on a sent node without
a delivered mark fails and leaves all conversation state unchanged, the
editing and replying cursors in particular.  On a state with no edit in
progress, `replying = some "r1"` and an unmarked node `p1`, the action does
fail with `Cannot Edit Non-Delivered Message.`, but the resulting state
differs from the prior one: the code sets `replying = undefined` and
`editing = paragraph.id` before the delivered-mark check. -/
theorem C4_state_mutation_counterexample :
    ((ondblclick (UIState.mk none (some "r1")
        [("B", [ChatNode.mk "p1" "sent" "hello"])]) "p1").2 =
      some "Cannot Edit Non-Delivered Message.") ∧
    ((ondblclick (UIState.mk none (some "r1")
        [("B", [ChatNode.mk "p1" "sent" "hello"])]) "p1").1.editing = some "p1") ∧
    ((ondblclick (UIState.mk none (some "r1")
        [("B", [ChatNode.mk "p1" "sent" "hello"])]) "p1").1.replying = none) ∧
    ((ondblclick (UIState.mk none (some "r1")
        [("B", [ChatNode.mk "p1" "sent" "hello"])]) "p1").1 ≠
      UIState.mk none (some "r1") [("B", [ChatNode.mk "p1" "sent" "hello"])]) := by
  refine ⟨?_, ?_, ?_, ?_⟩ <;> decide

/-- C4 (amended): double-click edit-initiation on a sent node `pid` never
leaves the conversation state unchanged on failure.  (i) When the `editing`
cursor names an id with no element in the document, the action throws a
TypeError at the glyph revert: `replying` is cleared but `editing` and the
document keep their values.  (ii) With no edit in progress, on a node without
the delivered mark the action throws `Cannot Edit Non-Delivered Message.` and
the document is unchanged, but `replying` is cleared and `editing` is set to
the clicked node's id.  (iii) With no edit in progress, on a node carrying
the mark the action succeeds and toggles the mark glyph from the delivered
mark to the editing mark.  (iv)/(v) When `editing` names a node present in
the document, that node's editing glyph is first reverted to the delivered
mark and the same failure/success behaviour applies on the reverted
document. -/
theorem C4_edit_initiation (st : UIState) (pid : String) :
    (∀ eid, st.editing = some eid → docGetNode st.doc eid = none →
      ondblclick st pid =
        (UIState.mk st.editing none st.doc,
         some "TypeError: cannot set innerHTML of null")) ∧
    (∀ p, st.editing = none → docGetNode st.doc pid = some p →
      strEndsWith p.innerHTML deliveredMark = false →
      ondblclick st pid =
        (UIState.mk (some pid) none st.doc, some "Cannot Edit Non-Delivered Message.")) ∧
    (∀ p, st.editing = none → docGetNode st.doc pid = some p →
      strEndsWith p.innerHTML deliveredMark = true →
      ondblclick st pid =
        (UIState.mk (some pid) none
          (docSetNode st.doc pid
            (fun n => { n with innerHTML := swapSuffix n.innerHTML deliveredMark editMark })),
         none)) ∧
    (∀ eid prevN p, st.editing = some eid → docGetNode st.doc eid = some prevN →
      docGetNode (docSetNode st.doc eid (fun n => { n with innerHTML := swapSuffix n.innerHTML editMark deliveredMark })) pid = some p →
      strEndsWith p.innerHTML deliveredMark = false →
      ondblclick st pid =
        (UIState.mk (some pid) none
          (docSetNode st.doc eid (fun n => { n with innerHTML := swapSuffix n.innerHTML editMark deliveredMark })),
         some "Cannot Edit Non-Delivered Message.")) ∧
    (∀ eid prevN p, st.editing = some eid → docGetNode st.doc eid = some prevN →
      docGetNode (docSetNode st.doc eid (fun n => { n with innerHTML := swapSuffix n.innerHTML editMark deliveredMark })) pid = some p →
      strEndsWith p.innerHTML deliveredMark = true →
      ondblclick st pid =
        (UIState.mk (some pid) none
          (docSetNode (docSetNode st.doc eid (fun n => { n with innerHTML := swapSuffix n.innerHTML editMark deliveredMark })) pid (fun n => { n with innerHTML := swapSuffix n.innerHTML deliveredMark editMark })),
         none)) := by
  refine ⟨?_, ?_, ?_, ?_, ?_⟩
  · intro eid hed hmiss
    simp [ondblclick, hed, hmiss]
  · intro p hed hp h
    simp [ondblclick, ondblclickRest, hed, hp, h]
  · intro p hed hp h
    simp [ondblclick, ondblclickRest, hed, hp, h]
  · intro eid prevN p hed hprev hp h
    simp [ondblclick, ondblclickRest, hed, hprev, hp, h]
  · intro eid prevN p hed hprev hp h
    simp [ondblclick, ondblclickRest, hed, hprev, hp, h]

set_option maxRecDepth 8192 in
theorem C4_edit_initiation_witness :
    ((UIState.mk none (some "r1")
        [("B", [ChatNode.mk "p1" "sent" ("hello" ++ deliveredMark)])]).editing = none) ∧
    (docGetNode [("B", [ChatNode.mk "p1" "sent" ("hello" ++ deliveredMark)])] "p1" =
      some (ChatNode.mk "p1" "sent" ("hello" ++ deliveredMark))) ∧
    (strEndsWith ("hello" ++ deliveredMark : String) deliveredMark = true) ∧
    ondblclick (UIState.mk none (some "r1")
        [("B", [ChatNode.mk "p1" "sent" ("hello" ++ deliveredMark)])]) "p1" =
      (UIState.mk (some "p1") none
        (docSetNode [("B", [ChatNode.mk "p1" "sent" ("hello" ++ deliveredMark)])] "p1"
          (fun n => { n with innerHTML := swapSuffix n.innerHTML deliveredMark editMark })),
       none) :=
  ⟨rfl, by decide, by decide,
    (C4_edit_initiation
      (UIState.mk none (some "r1")
        [("B", [ChatNode.mk "p1" "sent" ("hello" ++ deliveredMark)])]) "p1").2.2.1
      (ChatNode.mk "p1" "sent" ("hello" ++ deliveredMark)) rfl (by decide) (by decide)⟩

set_option maxRecDepth 8192 in
/-- C9: [counterexample] the claim says every content-appending operation,
receiving a plain message included, inserts the new node before a trailing
typing indicator when one is present.  Receiving a plain message while the
view ends with a typing indicator instead removes the indicator and appends
at the end: the result differs from the claimed insert-before-indicator
shape. -/
theorem C9_receive_removes_indicator_counterexample :
    (handleDefaultMsg (fun _ _ c => c) (fun _ => "msg")
        (keysInsert aesKeysEmpty "B" [1] [2]) "me"
        [ChatNode.mk "a" "received" "old", typingNode "t"] "B" "m1" "12:00" [1] ≠
      some ([ChatNode.mk "a" "received" "old",
             ChatNode.mk "m1" "received" ("msg" ++ timeSuffix "12:00"), typingNode "t"],
            deliveredReply "me" "m1")) ∧
    handleDefaultMsg (fun _ _ c => c) (fun _ => "msg")
        (keysInsert aesKeysEmpty "B" [1] [2]) "me"
        [ChatNode.mk "a" "received" "old", typingNode "t"] "B" "m1" "12:00" [1] =
      some ([ChatNode.mk "a" "received" "old",
             ChatNode.mk "m1" "received" ("msg" ++ timeSuffix "12:00")],
            deliveredReply "me" "m1") := by
  refine ⟨?_, ?_⟩ <;> decide

/-- C9 (amended): the typing-indicator invariant — at most one indicator per
view and, when present, it is the last child — is preserved by every view
operation (`Typing`, `StopTyping`, local echo of a sent message, receiving a
plain message).  The local echo inserts the new node before a trailing typing
indicator when one is present and appends at the end otherwise; receiving a
plain message removes a trailing typing indicator and appends at the end. -/
theorem C9_typing_invariant_preserved
    (v : List ChatNode) (mid time txt : String)
    (aesDec : Bytes → Bytes → Bytes → Bytes) (textDecode : Bytes → String)
    (keys : AesKeyTable) (selfId fromP : String) (cipher : Bytes) :
    (typingInvariant v = true → typingInvariant (handleTyping v mid) = true) ∧
    (typingInvariant v = true → typingInvariant (handleStopTyping v) = true) ∧
    (typingInvariant v = true →
      typingInvariant (sendEcho v (mkSentNode mid time txt)) = true) ∧
    (typingInvariant v = true → ∀ v2 reply,
      handleDefaultMsg aesDec textDecode keys selfId v fromP mid time cipher =
        some (v2, reply) → typingInvariant v2 = true) ∧
    (lastIsTyping v = false →
      sendEcho v (mkSentNode mid time txt) = v ++ [mkSentNode mid time txt]) ∧
    (∀ l, v.getLast? = some l → l.className = "typing" →
      sendEcho v (mkSentNode mid time txt) =
        v.dropLast ++ [mkSentNode mid time txt, l]) ∧
    (∀ iv k, keys fromP = some (iv, k) →
      handleDefaultMsg aesDec textDecode keys selfId v fromP mid time cipher =
        some ((if lastIsTyping v then v.dropLast else v) ++
            [ChatNode.mk mid "received"
              (textDecode (aesDec iv k cipher) ++ timeSuffix time)],
          deliveredReply selfId mid)) := by
  have hconcat : ∀ (w : List ChatNode) (n : ChatNode),
      w.all (fun x => !(x.className == "typing")) = true →
      typingInvariant (w ++ [n]) = true := by
    intro w n hw
    exact typingInvariant_concat w n hw
  refine ⟨?_, ?_, ?_, ?_, ?_, ?_, ?_⟩
  · intro hinv
    by_cases h : lastIsTyping v
    · simp [handleTyping, h, hinv]
    · have h' : lastIsTyping v = false := by simpa using h
      rw [handleTyping, h']
      simp only [Bool.false_eq_true, if_false]
      exact hconcat v (typingNode mid) (all_nonTyping_of_invariant v hinv h')
  · intro hinv
    by_cases h : lastIsTyping v
    · simp only [handleStopTyping, h, if_true]
      exact typingInvariant_dropLast v hinv
    · simpa [handleStopTyping, h] using hinv
  · intro hinv
    unfold sendEcho
    cases hv : v.getLast? with
    | none =>
      have : v = [] := List.getLast?_eq_none_iff.mp hv
      subst this
      rfl
    | some l =>
      by_cases hl : (l.className == "typing") = true
      · simp only [hl, if_true]
        have hdl : (v.dropLast ++ [mkSentNode mid time txt, l]).dropLast =
            v.dropLast ++ [mkSentNode mid time txt] := by
          rw [show v.dropLast ++ [mkSentNode mid time txt, l] =
            (v.dropLast ++ [mkSentNode mid time txt]) ++ [l] by simp, List.dropLast_concat]
        unfold typingInvariant
        rw [hdl, List.all_append]
        unfold typingInvariant at hinv
        rw [hinv]
        rfl
      · have hl' : (l.className == "typing") = false := by simpa using hl
        simp only [hl', Bool.false_eq_true, if_false]
        have hlast : lastIsTyping v = false := by simp [lastIsTyping, hv, hl']
        exact hconcat v _ (all_nonTyping_of_invariant v hinv hlast)
  · intro hinv v2 reply hsome
    unfold handleDefaultMsg at hsome
    cases hdec : receiveDecrypt aesDec keys fromP cipher with
    | none => rw [hdec] at hsome; exact absurd hsome (by simp)
    | some plain =>
      rw [hdec] at hsome
      simp only [Option.some.injEq, Prod.mk.injEq] at hsome
      obtain ⟨hv2, _⟩ := hsome
      subst hv2
      by_cases h : lastIsTyping v
      · simp only [h, if_true]
        exact hconcat v.dropLast _ hinv
      · have h' : lastIsTyping v = false := by simpa using h
        simp only [h', Bool.false_eq_true, if_false]
        exact hconcat v _ (all_nonTyping_of_invariant v hinv h')
  · intro h
    unfold sendEcho
    cases hv : v.getLast? with
    | none => rfl
    | some l =>
      have hl : (l.className == "typing") = false := by
        have := h
        simp only [lastIsTyping, hv] at this
        exact this
      simp [hl]
  · intro l hv hl
    unfold sendEcho
    rw [hv]
    simp [hl]
  · intro iv k hck
    unfold handleDefaultMsg receiveDecrypt
    rw [hck]
    rfl

theorem C9_typing_invariant_preserved_witness :
    (typingInvariant [ChatNode.mk "a" "received" "old", typingNode "t"] = true) ∧
    (typingInvariant
      (handleTyping [ChatNode.mk "a" "received" "old", typingNode "t"] "u") = true) ∧
    ([ChatNode.mk "a" "received" "old", typingNode "t"].getLast? =
      some (typingNode "t")) ∧
    ((typingNode "t").className = "typing") ∧
    sendEcho [ChatNode.mk "a" "received" "old", typingNode "t"]
        (mkSentNode "m1" "12:00" "hi") =
      [ChatNode.mk "a" "received" "old", typingNode "t"].dropLast ++
        [mkSentNode "m1" "12:00" "hi", typingNode "t"] :=
  ⟨by decide, (C9_typing_invariant_preserved
      [ChatNode.mk "a" "received" "old", typingNode "t"] "u" "" ""
      (fun _ _ c => c) (fun _ => "") aesKeysEmpty "me" "B" []).1 (by decide),
   by decide, rfl,
   (C9_typing_invariant_preserved
      [ChatNode.mk "a" "received" "old", typingNode "t"] "m1" "12:00" "hi"
      (fun _ _ c => c) (fun _ => "") aesKeysEmpty "me" "B" []).2.2.2.2.2.1
      (typingNode "t") (by decide) rfl⟩

/-- C10: the `Edit` receive handler resolves its target node with
`document.getElementById(messageData.id)`, a document-global lookup: an Edit
envelope from peer `P` whose id matches a node in the view of a different
peer `Q` replaces that node's content with the body decrypted under `P`'s
ConversationKey, while the trailing-typing-indicator removal applies to `P`'s
view and the `Delivered` reply is addressed for `P`'s conversation. -/
theorem C10_edit_global_lookup
    (aesDec : Bytes → Bytes → Bytes → Bytes) (textDecode : Bytes → String)
    (keys : AesKeyTable) (selfId P Q mid time : String) (cipher : Bytes)
    (vP vQ1 vQ2 : List ChatNode) (p : ChatNode) (iv k : Bytes)
    (hkey : keys P = some (iv, k))
    (hvP : ∀ n ∈ vP, n.id ≠ mid) (hvQ1 : ∀ n ∈ vQ1, n.id ≠ mid) (hp : p.id = mid) :
    handleEditMsg aesDec textDecode keys selfId [(P, vP), (Q, vQ1 ++ p :: vQ2)]
        P mid time cipher =
      some ([(P, if lastIsTyping vP then vP.dropLast else vP),
             (Q, vQ1 ++ { p with innerHTML := textDecode (aesDec iv k cipher) ++ timeSuffix time } :: vQ2)],
            deliveredReply selfId mid) := by
  have h1 : viewGetNode vP mid = none := viewGetNode_eq_none vP mid hvP
  have h2 : viewGetNode (vQ1 ++ p :: vQ2) mid = some p :=
    viewGetNode_append vQ1 vQ2 p mid hvQ1 hp
  have h3 : viewSetNode (vQ1 ++ p :: vQ2) mid
      (fun n => { n with innerHTML := textDecode (aesDec iv k cipher) ++ timeSuffix time }) =
      vQ1 ++ { p with innerHTML := textDecode (aesDec iv k cipher) ++ timeSuffix time } :: vQ2 :=
    viewSetNode_append vQ1 vQ2 p mid _ hvQ1 hp
  unfold handleEditMsg receiveDecrypt
  rw [hkey]
  simp only [Option.map_some]
  simp only [docGetNode, h1, h2]
  simp only [docSetNode, h1, h2, h3, Option.isSome_none, Option.isSome_some,
    Bool.false_eq_true, if_false, if_true]
  simp [docSetView]
  exact h3

theorem C10_edit_global_lookup_witness :
    ((keysInsert aesKeysEmpty "P" [4] [8]) "P" = some ([4], [8])) ∧
    (∀ n ∈ [typingNode "t"], n.id ≠ "m1") ∧
    (∀ n ∈ ([] : List ChatNode), n.id ≠ "m1") ∧
    ((ChatNode.mk "m1" "sent" "old").id = "m1") ∧
    handleEditMsg (fun _ _ c => c) (fun _ => "edited")
        (keysInsert aesKeysEmpty "P" [4] [8]) "me"
        [("P", [typingNode "t"]), ("Q", [] ++ ChatNode.mk "m1" "sent" "old" :: [])]
        "P" "m1" "12:05" [3] =
      some ([("P", if lastIsTyping [typingNode "t"] then
                [typingNode "t"].dropLast else [typingNode "t"]),
             ("Q", [] ++ { ChatNode.mk "m1" "sent" "old" with innerHTML := "edited" ++ timeSuffix "12:05" } :: [])],
            deliveredReply "me" "m1") :=
  ⟨by decide, by decide, by decide, rfl,
    C10_edit_global_lookup (fun _ _ c => c) (fun _ => "edited")
      (keysInsert aesKeysEmpty "P" [4] [8]) "me" "P" "Q" "m1" "12:05" [3]
      [typingNode "t"] [] [] (ChatNode.mk "m1" "sent" "old") [4] [8]
      (by decide) (by decide) (by decide) rfl⟩

/-- C1: the two-envelope key exchange leaves both peers with identical
`(iv, key)` pairs.  If peer A sends an `RSAKeyShare` envelope carrying its
exported PEM public key, peer B (on receiving it) stores a fresh
ConversationKey under A's id, wraps the AES key under A's imported public key
and replies with an `AESKeyShare` envelope, and A (on receiving that reply)
unwraps with its private key and stores the result under B's id, then
`A.aesKeys[B] = B.aesKeys[A] = (iv, key)` — so, by the AES-CBC
decrypt-of-encrypt identity, encrypting any plaintext on either side and
decrypting on the other recovers it. -/
theorem C1_key_exchange_establishes_shared_key
    (rsaEnc : Bytes → Bytes → Bytes) (rsaDec : Bytes → Bytes) (pubSpki : Bytes)
    (hpub : ∀ b ∈ pubSpki, b < 256)
    (hrsa : ∀ m, rsaDec (rsaEnc pubSpki m) = m)
    (aesEnc aesDec : Bytes → Bytes → Bytes → Bytes)
    (haes : ∀ iv k m, aesDec iv k (aesEnc iv k m) = m)
    (keysA keysB : AesKeyTable) (A B : String) (iv k : Bytes) :
    ∃ keysB2 env keysA2,
      handleRSAKeyShare rsaEnc keysB B A (exportRSAKey pubSpki) iv k =
        some (keysB2, env) ∧
      env = { fromPeer := B, body := .pair iv (rsaEnc pubSpki k), time := "",
              id := "", event := some .AESKeyShare, prev := none } ∧
      handleAESKeyShare rsaDec keysA B env.body = some keysA2 ∧
      keysB2 A = some (iv, k) ∧ keysA2 B = some (iv, k) ∧
      (∀ m, (sendEncrypt aesEnc keysA2 B m).bind (receiveDecrypt aesDec keysB2 A) =
        some m) ∧
      (∀ m, (sendEncrypt aesEnc keysB2 A m).bind (receiveDecrypt aesDec keysA2 B) =
        some m) := by
  have him := importRSAKey_exportRSAKey pubSpki hpub
  refine ⟨keysInsert keysB A iv k,
    { fromPeer := B, body := .pair iv (rsaEnc pubSpki k), time := "",
      id := "", event := some .AESKeyShare, prev := none },
    keysInsert keysA B iv (rsaDec (rsaEnc pubSpki k)), ?_, rfl, rfl, ?_, ?_, ?_, ?_⟩
  · unfold handleRSAKeyShare
    rw [him]
  · exact keysInsert_self keysB A iv k
  · rw [keysInsert_self, hrsa k]
  · intro m
    have hA : keysInsert keysA B iv (rsaDec (rsaEnc pubSpki k)) B = some (iv, k) := by
      rw [keysInsert_self, hrsa k]
    have hB : keysInsert keysB A iv k A = some (iv, k) := keysInsert_self keysB A iv k
    simp [sendEncrypt, receiveDecrypt, hA, hB, haes]
  · intro m
    have hA : keysInsert keysA B iv (rsaDec (rsaEnc pubSpki k)) B = some (iv, k) := by
      rw [keysInsert_self, hrsa k]
    have hB : keysInsert keysB A iv k A = some (iv, k) := keysInsert_self keysB A iv k
    simp [sendEncrypt, receiveDecrypt, hA, hB, haes]

theorem C1_key_exchange_establishes_shared_key_witness :
    (∀ b ∈ ([48, 1, 2] : Bytes), b < 256) ∧
    (∃ keysB2 env keysA2,
      handleRSAKeyShare (fun _ m => m) aesKeysEmpty "B" "A"
          (exportRSAKey [48, 1, 2]) [5] [9] = some (keysB2, env) ∧
      env = { fromPeer := "B", body := .pair [5] ((fun (_ m : Bytes) => m) [48, 1, 2] [9]),
              time := "", id := "", event := some .AESKeyShare, prev := none } ∧
      handleAESKeyShare (fun c => c) aesKeysEmpty "B" env.body = some keysA2 ∧
      keysB2 "A" = some ([5], [9]) ∧ keysA2 "B" = some ([5], [9]) ∧
      (∀ m, (sendEncrypt (fun _ _ m => m) keysA2 "B" m).bind
        (receiveDecrypt (fun _ _ c => c) keysB2 "A") = some m) ∧
      (∀ m, (sendEncrypt (fun _ _ m => m) keysB2 "A" m).bind
        (receiveDecrypt (fun _ _ c => c) keysA2 "B") = some m)) :=
  ⟨by decide,
    C1_key_exchange_establishes_shared_key (fun _ m => m) (fun c => c) [48, 1, 2]
      (by decide) (fun _ => rfl) (fun _ _ m => m) (fun _ _ c => c) (fun _ _ _ => rfl)
      aesKeysEmpty aesKeysEmpty "A" "B" [5] [9]⟩

end TinyChat
